import Mathlib

/-!
Shallow embedding of the keyword-cannibalization pipeline of
`src/keyword_can.py` (`main`).  The pipeline takes a CSV table (header plus
rows of string cells) and an exclusion-term text, and produces a cleaned
table, a top-10 cannibalization ranking and two diagnostic counts.

Modelling choices:
* pandas floats are modelled as exact rationals (`ℚ`);
* the host numeric parser (`pd.to_numeric(errors='coerce')` followed by
  `astype(int)`) is an abstract `parse : String → Option Int` parameter;
* Python's `str.strip`, `str.split(',')` and string comparison are
  implemented structurally over the character list of a `String`
  (`strTrim`, `strSplitComma`, `strLe`), mirroring Python's semantics;
* `sort_values` is modelled by a sort; every property proved below depends
  only on the ordering of the relevant key, never on tie order.
-/

-- Batteries marks the rational operations irreducible, which only blocks
-- elaborator-level evaluation of concrete pipeline runs; restore the
-- default within this file.
attribute [local semireducible] Rat.mul Rat.inv Rat.add Rat.sub

namespace KeywordCan

/-- A row after numeric coercion of `Impressions` (lines 58-61). -/
structure Row where
  query : String
  landingPage : String
  impressions : Int
deriving DecidableEq, Repr

/-- A row after the groupby-sum totals are merged back and the percentage is
computed (lines 81-86). -/
structure AggRow where
  query : String
  landingPage : String
  impressions : Int
  total : Int
  pct : ℚ
deriving DecidableEq, Repr

/-- A row of the final cleaned table, columns in the order of line 95, with
the percentage already formatted (line 101). -/
structure OutRow where
  landingPage : String
  query : String
  impressions : Int
  total : Int
  pctDisplay : String
deriving DecidableEq, Repr

/-- One entry of the cannibalization ranking (lines 108-113). -/
structure CanEntry where
  query : String
  nPages : Nat
  total : Int
deriving DecidableEq, Repr

/-- The parsed CSV file as `pd.read_csv` delivers it: a header naming the
columns, and rows of string cells. -/
structure CsvTable where
  header : List String
  rows : List (List String)
deriving DecidableEq, Repr

/-- What the pipeline produces on success: the cleaned table, the ranking,
and the two diagnostic counts computed at lines 62 and 78. -/
structure Output where
  table : List OutRow
  ranking : List CanEntry
  droppedNonNumeric : Nat
  droppedLow : Nat
deriving DecidableEq, Repr

/-- `required_columns` of line 50. -/
def requiredColumns : List String := ["Impressions", "Query", "Landing Page"]

/-- `missing_columns` of line 51: the required columns absent from the
header, in the order of `requiredColumns`. -/
def missingColumns (header : List String) : List String :=
  requiredColumns.filter (fun c => !header.contains c)

/-- Index of a column in the header (0 if absent; only used on present
columns). -/
def colIdx : List String → String → Nat
  | [], _ => 0
  | c :: rest, col => if c = col then 0 else colIdx rest col + 1

/-- The cell of a row under a named column. -/
def getCell (header : List String) (cells : List String) (col : String) : String :=
  cells.getD (colIdx header col) ""

/-- Lines 58-62: coerce `Impressions` with the host parser, drop the rows
where coercion fails, and report `initial_row_count - df.shape[0]` as the
dropped count. -/
def normalize (parse : String → Option Int) (header : List String)
    (rows : List (List String)) : List Row × Nat :=
  let kept := rows.filterMap (fun cs =>
    (parse (getCell header cs "Impressions")).map (fun n =>
      { query := getCell header cs "Query"
        landingPage := getCell header cs "Landing Page"
        impressions := n }))
  (kept, rows.length - kept.length)

/-- Line 65: sort by `Impressions` descending. -/
def sortRowsDesc (rows : List Row) : List Row :=
  List.insertionSort (fun a b => b.impressions ≤ a.impressions) rows

/-- Python `str.strip`: drop whitespace from both ends. -/
def strTrim (s : String) : String :=
  ⟨(((s.data.dropWhile Char.isWhitespace).reverse).dropWhile Char.isWhitespace).reverse⟩

/-- Python `str.split(',')` over the character list. -/
def splitCommaAux : List Char → List (List Char)
  | [] => [[]]
  | c :: rest =>
    match splitCommaAux rest with
    | [] => [[]]
    | cur :: more => if c = ',' then [] :: cur :: more else (c :: cur) :: more

/-- Python `str.split(',')`. -/
def strSplitComma (s : String) : List String := (splitCommaAux s.data).map String.mk

/-- Lexicographic (code-point) strict order on character lists. -/
def lexLt : List Char → List Char → Bool
  | [], [] => false
  | [], _ :: _ => true
  | _ :: _, [] => false
  | a :: as, b :: bs => if a = b then lexLt as bs else decide (a < b)

/-- Python string `<=`, used by the alphabetical `sort_values` of line 98. -/
def strLe (a b : String) : Bool := a = b || lexLt a.data b.data

/-- Line 69: split the free text on commas, strip whitespace, discard empty
terms. -/
def parseExclusions (s : String) : List String :=
  ((strSplitComma s).map strTrim).filter (fun q => q ≠ "")

/-- Lines 68-73: when the input text is non-empty and yields at least one
term, remove the rows whose `Query` is in the term list (`isin` is an exact,
case-sensitive membership test). -/
def excludeStep (exclText : String) (rows : List Row) : List Row :=
  if exclText = "" then rows
  else
    let terms := parseExclusions exclText
    if terms.isEmpty then rows
    else rows.filter (fun r => !terms.contains r.query)

/-- Line 77: keep the rows with `Impressions >= 10`. -/
def floorFilter (rows : List Row) : List Row :=
  rows.filter (fun r => 10 ≤ r.impressions)

/-- Sum of `Impressions` over the rows of one query. -/
def totalFor (rows : List Row) (q : String) : Int :=
  ((rows.filter (fun r => r.query = q)).map (fun r => r.impressions)).sum

/-- Lines 81-82: `groupby('Query').sum()` as an association list from each
distinct query to its summed impressions. -/
def groupTotals (rows : List Row) : List (String × Int) :=
  ((rows.map (fun r => r.query)).dedup).map (fun q => (q, totalFor rows q))

/-- Left-merge lookup of a query's total (every surviving row's query has an
entry, so the default is never reached). -/
def lookupTotal (gt : List (String × Int)) (q : String) : Int :=
  ((gt.find? (fun p => p.1 = q)).map (fun p => p.2)).getD 0

/-- Lines 83-86: merge the totals back onto every row and compute
`Percentage of Impressions = Impressions / Total × 100`. -/
def mergeTotals (rows : List Row) : List AggRow :=
  rows.map (fun r =>
    let t := lookupTotal (groupTotals rows) r.query
    { query := r.query, landingPage := r.landingPage,
      impressions := r.impressions, total := t,
      pct := (r.impressions : ℚ) / (t : ℚ) * 100 })

/-- The dedup key of line 89. -/
def keyOf (r : AggRow) : String × String := (r.query, r.landingPage)

/-- Line 89: `drop_duplicates(subset=['Query','Landing Page'])` — keep the
first row of each (Query, Landing Page) pair in the current order. -/
def dedupAux : List (String × String) → List AggRow → List AggRow
  | _, [] => []
  | seen, r :: rest =>
    if keyOf r ∈ seen then dedupAux seen rest
    else r :: dedupAux (keyOf r :: seen) rest

def dedupRows (rows : List AggRow) : List AggRow := dedupAux [] rows

/-- Line 92: keep only `10 < Percentage of Impressions < 75`, on the
unrounded value. -/
def bandFilter (rows : List AggRow) : List AggRow :=
  rows.filter (fun r => decide (10 < r.pct ∧ r.pct < 75))

/-- Line 98: sort alphabetically by `Query`. -/
def sortAggByQuery (rows : List AggRow) : List AggRow :=
  List.insertionSort (fun a b => strLe a.query b.query = true) rows

/-- Line 101: `np.ceil` the percentage, convert to int then string, append
a percent sign; columns reordered as at line 95. -/
def toOutRow (a : AggRow) : OutRow :=
  { landingPage := a.landingPage, query := a.query,
    impressions := a.impressions, total := a.total,
    pctDisplay := toString ⌈a.pct⌉ ++ "%" }

/-- Line 104: final sort by `Total Keyword Impressions` descending. -/
def sortOutByTotalDesc (rows : List OutRow) : List OutRow :=
  List.insertionSort (fun a b => b.total ≤ a.total) rows

/-- Distinct landing pages of a query in the final table
(`'Landing Page': 'nunique'` of line 109). -/
def distinctPages (table : List OutRow) (q : String) : Nat :=
  (((table.filter (fun r => r.query = q)).map (fun r => r.landingPage)).dedup).length

/-- `'Total Keyword Impressions': 'first'` of line 110: the total of the
first row of the query in the final table. -/
def firstTotal (table : List OutRow) (q : String) : Int :=
  ((table.find? (fun r => r.query = q)).map (fun r => r.total)).getD 0

/-- Lines 108-113: group the final table by query, count distinct landing
pages, keep the queries with more than one, sort by total impressions
descending, take the first 10.  (Pandas sorts the groupby keys; the key
order is immaterial here because the list is re-sorted by total.) -/
def rankCannibalized (table : List OutRow) : List CanEntry :=
  let queries := (table.map (fun r => r.query)).dedup
  let entries := queries.map (fun q =>
    { query := q, nPages := distinctPages table q, total := firstTotal table q })
  let multi := entries.filter (fun e => decide (1 < e.nPages))
  (List.insertionSort (fun a b => b.total ≤ a.total) multi).take 10

/-- The surviving rows right after the exclusion and low-impression filters
(the state of `df` at line 79). -/
def survivors (parse : String → Option Int) (exclText : String) (t : CsvTable) :
    List Row :=
  floorFilter (excludeStep exclText (sortRowsDesc (normalize parse t.header t.rows).1))

/-- Lines 56-113 after validation has passed. -/
def pipelineCore (parse : String → Option Int) (exclText : String) (t : CsvTable) :
    Output :=
  let excluded := excludeStep exclText (sortRowsDesc (normalize parse t.header t.rows).1)
  let floored := floorFilter excluded
  let banded := bandFilter (dedupRows (mergeTotals floored))
  let finalTable := sortOutByTotalDesc ((sortAggByQuery banded).map toOutRow)
  { table := finalTable
    ranking := rankCannibalized finalTable
    droppedNonNumeric := (normalize parse t.header t.rows).2
    droppedLow := excluded.length - floored.length }

/-- Lines 50-54 then 56-113: fail with the list of missing required columns
when there are any, otherwise run the cleaning pipeline. -/
def pipeline (parse : String → Option Int) (exclText : String) (t : CsvTable) :
    Except (List String) Output :=
  if missingColumns t.header = [] then .ok (pipelineCore parse exclText t)
  else .error (missingColumns t.header)

instance {ε α : Type} [DecidableEq ε] [DecidableEq α] :
    DecidableEq (Except ε α) := fun x y =>
  match x, y with
  | .ok a, .ok b =>
    if h : a = b then .isTrue (by rw [h]) else .isFalse (by simp [h])
  | .error e, .error f =>
    if h : e = f then .isTrue (by rw [h]) else .isFalse (by simp [h])
  | .ok _, .error _ => .isFalse (by simp)
  | .error _, .ok _ => .isFalse (by simp)

/-! ### Concrete fixtures used by witnesses and counterexamples

`wParse` is one concrete instance of the host numeric parser, defined on the
cell values occurring in the fixture tables. -/

def wParse : String → Option Int
  | "60" => some 60
  | "40" => some 40
  | "1000" => some 1000
  | "5" => some 5
  | "30" => some 30
  | "100" => some 100
  | _ => none

def wHeader : List String := ["Query", "Landing Page", "Impressions"]

/-- The scenario table of the spec: two "shoes" rows and one branded row. -/
def wTable : CsvTable :=
  ⟨wHeader, [["shoes", "/a", "60"], ["shoes", "/b", "40"], ["BrandX", "/c", "1000"]]⟩

/-- The pipeline's output on `wTable` with exclusion text `"BrandX"`. -/
def wOut : Output :=
  { table := [⟨"/a", "shoes", 60, 100, "60%"⟩, ⟨"/b", "shoes", 40, 100, "40%"⟩]
    ranking := [⟨"shoes", 2, 100⟩]
    droppedNonNumeric := 0
    droppedLow := 0 }

def w1Row : AggRow := ⟨"shoes", "/a", 60, 100, (60 : ℚ) / (100 : ℚ) * 100⟩

/-- A table with a duplicate (Query, Landing Page) pair of unequal
impressions. -/
def w10Table : CsvTable :=
  ⟨wHeader, [["shoes", "/a", "40"], ["shoes", "/a", "60"], ["shoes", "/b", "30"]]⟩

def w10r : AggRow := ⟨"shoes", "/a", 60, 130, (60 : ℚ) / (130 : ℚ) * 100⟩

def w10s : AggRow := ⟨"shoes", "/a", 40, 130, (40 : ℚ) / (130 : ℚ) * 100⟩

/-- A table whose header lacks the required `Query` column. -/
def wBadTable : CsvTable := ⟨["Impressions", "Landing Page"], [["60", "/a"]]⟩

/-- A structurally valid table whose single row has a non-numeric
`Impressions` cell, so normalization leaves zero usable rows. -/
def c9Table : CsvTable :=
  ⟨["Impressions", "Query", "Landing Page"], [["abc", "q", "/p"]]⟩

/-- The low-impression scenario of the spec: a single row with 5
impressions. -/
def c8FloorTable : CsvTable := ⟨wHeader, [["shoes", "/a", "5"]]⟩

def c8Out : Output := ⟨[], [], 0, 1⟩

/-! ### Generic counting lemmas -/

theorem length_filterMap_eq_filter {α β : Type} (f : α → Option β) (l : List α) :
    (l.filterMap f).length = (l.filter (fun x => (f x).isSome)).length := by
  induction l with
  | nil => rfl
  | cons a t ih =>
    cases h : f a <;> simp [List.filterMap_cons, List.filter_cons, h, ih]

theorem length_sub_filter {α : Type} (p : α → Bool) (l : List α) :
    l.length - (l.filter p).length = (l.filter (fun x => !p x)).length := by
  induction l with
  | nil => rfl
  | cons a t ih =>
    have hle := List.length_filter_le p t
    cases h : p a <;> simp [List.filter_cons, h] <;> omega

/-! ### The groupby-sum merge -/

theorem lookupTotal_map (f : String → Int) (q : String) :
    ∀ ks : List String, q ∈ ks →
      lookupTotal (ks.map (fun k => (k, f k))) q = f q := by
  intro ks
  induction ks with
  | nil => intro h; cases h
  | cons k ks ih =>
    intro hq
    by_cases hk : k = q
    · subst hk
      simp [lookupTotal, List.find?_cons_of_pos]
    · have hq' : q ∈ ks := by
        rcases List.mem_cons.mp hq with h | h
        · exact absurd h.symm hk
        · exact h
      have : lookupTotal ((k, f k) :: ks.map (fun k => (k, f k))) q
          = lookupTotal (ks.map (fun k => (k, f k))) q := by
        simp [lookupTotal, List.find?_cons_of_neg, hk]
      simpa [this] using ih hq'

theorem mem_mergeTotals {rows : List Row} {r : AggRow} (h : r ∈ mergeTotals rows) :
    r.total = totalFor rows r.query ∧
    r.pct = (r.impressions : ℚ) / (r.total : ℚ) * 100 := by
  obtain ⟨x, hx, rfl⟩ := List.mem_map.mp h
  refine ⟨?_, rfl⟩
  show lookupTotal (groupTotals rows) x.query = totalFor rows x.query
  have hmem : x.query ∈ (rows.map (fun r => r.query)).dedup :=
    List.mem_dedup.mpr (List.mem_map_of_mem _ hx)
  simpa [groupTotals] using lookupTotal_map (totalFor rows) x.query _ hmem

/-! ### Deduplication lemmas -/

theorem mem_of_mem_dedupAux :
    ∀ (seen : List (String × String)) (l : List AggRow) (r : AggRow),
      r ∈ dedupAux seen l → r ∈ l := by
  intro seen l
  induction l generalizing seen with
  | nil => intro r h; cases h
  | cons a tail ih =>
    intro r h
    unfold dedupAux at h
    split at h
    · exact List.mem_cons_of_mem _ (ih _ _ h)
    · rcases List.mem_cons.mp h with rfl | h
      · exact List.mem_cons_self _ _
      · exact List.mem_cons_of_mem _ (ih _ _ h)

theorem keyOf_not_seen_of_mem_dedupAux :
    ∀ (seen : List (String × String)) (l : List AggRow) (r : AggRow),
      r ∈ dedupAux seen l → keyOf r ∉ seen := by
  intro seen l
  induction l generalizing seen with
  | nil => intro r h; cases h
  | cons a tail ih =>
    intro r h
    unfold dedupAux at h
    split at h
    · exact ih _ _ h
    · rcases List.mem_cons.mp h with rfl | h
      · assumption
      · intro hmem
        exact ih _ _ h (List.mem_cons_of_mem _ hmem)

theorem dedupAux_pairwise_keys :
    ∀ (seen : List (String × String)) (l : List AggRow),
      List.Pairwise (fun a b : AggRow => keyOf a ≠ keyOf b) (dedupAux seen l) := by
  intro seen l
  induction l generalizing seen with
  | nil => exact List.Pairwise.nil
  | cons a tail ih =>
    unfold dedupAux
    split
    · exact ih _
    · refine List.Pairwise.cons (fun b hb => ?_) (ih _)
      have := keyOf_not_seen_of_mem_dedupAux _ _ _ hb
      intro heq
      exact this (heq ▸ List.mem_cons_self _ _)

theorem dedupAux_keeps_first :
    ∀ (seen : List (String × String)) (l : List AggRow) (k : String × String)
      (r : AggRow),
      l.find? (fun s => decide (keyOf s = k)) = some r → k ∉ seen →
      r ∈ dedupAux seen l := by
  intro seen l
  induction l generalizing seen with
  | nil => intro k r h; cases h
  | cons a tail ih =>
    intro k r hfind hk
    by_cases ha : keyOf a = k
    · rw [List.find?_cons_of_pos _ (by simpa using ha)] at hfind
      obtain rfl : a = r := by simpa using hfind
      unfold dedupAux
      rw [if_neg (ha ▸ hk)]
      exact List.mem_cons_self _ _
    · rw [List.find?_cons_of_neg _ (by simpa using ha)] at hfind
      unfold dedupAux
      split
      · exact ih _ _ _ hfind hk
      · refine List.mem_cons_of_mem _ (ih _ _ _ hfind ?_)
        intro hmem
        rcases List.mem_cons.mp hmem with h | h
        · exact ha h.symm
        · exact hk h

theorem dedupAux_first_unique :
    ∀ (seen : List (String × String)) (l : List AggRow) (k : String × String)
      (r s : AggRow),
      l.find? (fun x => decide (keyOf x = k)) = some r →
      s ∈ dedupAux seen l → keyOf s = k → s = r := by
  intro seen l
  induction l generalizing seen with
  | nil => intro k r s h; cases h
  | cons a tail ih =>
    intro k r s hfind hs hsk
    by_cases ha : keyOf a = k
    · rw [List.find?_cons_of_pos _ (by simpa using ha)] at hfind
      obtain rfl : a = r := by simpa using hfind
      unfold dedupAux at hs
      split at hs
      · exact absurd (hsk ▸ ha ▸ ‹keyOf a ∈ seen›)
          (keyOf_not_seen_of_mem_dedupAux _ _ _ hs)
      · rcases List.mem_cons.mp hs with rfl | hs
        · rfl
        · have := keyOf_not_seen_of_mem_dedupAux _ _ _ hs
          exact absurd (hsk ▸ ha ▸ List.mem_cons_self _ _) this
    · rw [List.find?_cons_of_neg _ (by simpa using ha)] at hfind
      unfold dedupAux at hs
      split at hs
      · exact ih _ _ _ _ hfind hs hsk
      · rcases List.mem_cons.mp hs with rfl | hs
        · exact absurd hsk ha
        · exact ih _ _ _ _ hfind hs hsk

theorem dedupAux_max :
    ∀ (seen : List (String × String)) (l : List AggRow) (r s : AggRow),
      List.Pairwise (fun a b : AggRow => b.impressions ≤ a.impressions) l →
      r ∈ dedupAux seen l → s ∈ l → keyOf s = keyOf r →
      s.impressions ≤ r.impressions := by
  intro seen l
  induction l generalizing seen with
  | nil => intro r s _ _ h; cases h
  | cons a tail ih =>
    intro r s hpw hr hs hk
    have hpw' := List.pairwise_cons.mp hpw
    unfold dedupAux at hr
    split at hr
    · rcases List.mem_cons.mp hs with rfl | hs
      · have hrk := keyOf_not_seen_of_mem_dedupAux _ _ _ hr
        exact absurd (hk ▸ ‹keyOf s ∈ seen›) hrk
      · exact ih _ _ _ hpw'.2 hr hs hk
    · rcases List.mem_cons.mp hr with rfl | hr
      · rcases List.mem_cons.mp hs with rfl | hs
        · exact le_refl _
        · exact hpw'.1 s hs
      · rcases List.mem_cons.mp hs with rfl | hs
        · have hrk := keyOf_not_seen_of_mem_dedupAux _ _ _ hr
          exact absurd (hk ▸ List.mem_cons_self _ _) hrk
        · exact ih _ _ _ hpw'.2 hr hs hk

/-! ### Ordering and transport lemmas -/

theorem sortRowsDesc_sorted (rows : List Row) :
    List.Pairwise (fun a b : Row => b.impressions ≤ a.impressions)
      (sortRowsDesc rows) := by
  haveI : IsTotal Row (fun a b => b.impressions ≤ a.impressions) :=
    ⟨fun a b => le_total b.impressions a.impressions⟩
  haveI : IsTrans Row (fun a b => b.impressions ≤ a.impressions) :=
    ⟨fun _ _ _ hab hbc => le_trans hbc hab⟩
  exact List.sorted_insertionSort _ rows

theorem excludeStep_sublist (exclText : String) (rows : List Row) :
    (excludeStep exclText rows).Sublist rows := by
  unfold excludeStep
  split
  · exact List.Sublist.refl _
  · simp only []
    split
    · exact List.Sublist.refl _
    · exact List.filter_sublist _

theorem survivors_sorted (parse : String → Option Int) (exclText : String)
    (t : CsvTable) :
    List.Pairwise (fun a b : Row => b.impressions ≤ a.impressions)
      (survivors parse exclText t) :=
  List.Pairwise.sublist
    ((List.filter_sublist _).trans (excludeStep_sublist _ _))
    (sortRowsDesc_sorted _)

theorem mergeTotals_sorted {rows : List Row}
    (h : List.Pairwise (fun a b : Row => b.impressions ≤ a.impressions) rows) :
    List.Pairwise (fun a b : AggRow => b.impressions ≤ a.impressions)
      (mergeTotals rows) := by
  unfold mergeTotals
  exact List.pairwise_map.mpr (h.imp (fun hab => hab))

theorem mem_sortAggByQuery {l : List AggRow} {r : AggRow} :
    r ∈ sortAggByQuery l ↔ r ∈ l :=
  (List.perm_insertionSort _ _).mem_iff

theorem mem_sortOutByTotalDesc {l : List OutRow} {r : OutRow} :
    r ∈ sortOutByTotalDesc l ↔ r ∈ l :=
  (List.perm_insertionSort _ _).mem_iff

theorem mem_bandFilter {l : List AggRow} {a : AggRow} :
    a ∈ bandFilter l ↔ a ∈ l ∧ (10 < a.pct ∧ a.pct < 75) := by
  simp [bandFilter, List.mem_filter]

/-! ### Pipeline shape lemmas -/

theorem pipelineCore_table (parse : String → Option Int) (exclText : String)
    (t : CsvTable) :
    (pipelineCore parse exclText t).table =
      sortOutByTotalDesc ((sortAggByQuery (bandFilter (dedupRows
        (mergeTotals (survivors parse exclText t))))).map toOutRow) := rfl

theorem pipelineCore_ranking (parse : String → Option Int) (exclText : String)
    (t : CsvTable) :
    (pipelineCore parse exclText t).ranking =
      rankCannibalized (pipelineCore parse exclText t).table := rfl

theorem pipelineCore_droppedNonNumeric (parse : String → Option Int)
    (exclText : String) (t : CsvTable) :
    (pipelineCore parse exclText t).droppedNonNumeric =
      (normalize parse t.header t.rows).2 := rfl

theorem pipelineCore_droppedLow (parse : String → Option Int)
    (exclText : String) (t : CsvTable) :
    (pipelineCore parse exclText t).droppedLow =
      (excludeStep exclText (sortRowsDesc (normalize parse t.header t.rows).1)).length -
      (floorFilter
        (excludeStep exclText
          (sortRowsDesc (normalize parse t.header t.rows).1))).length := rfl

theorem excludeStep_nil (exclText : String) : excludeStep exclText [] = [] :=
  List.sublist_nil.mp (excludeStep_sublist exclText [])

theorem pipeline_ok {parse : String → Option Int} {exclText : String}
    {t : CsvTable} {out : Output} (h : pipeline parse exclText t = .ok out) :
    out = pipelineCore parse exclText t := by
  unfold pipeline at h
  split at h
  · cases h; rfl
  · cases h

theorem pipeline_ok_of_valid (parse : String → Option Int) (exclText : String)
    (t : CsvTable) (h : missingColumns t.header = []) :
    pipeline parse exclText t = .ok (pipelineCore parse exclText t) := by
  simp [pipeline, h]

theorem mem_table_exists {parse : String → Option Int} {exclText : String}
    {t : CsvTable} {r : OutRow}
    (h : r ∈ (pipelineCore parse exclText t).table) :
    ∃ a, a ∈ bandFilter (dedupRows (mergeTotals (survivors parse exclText t))) ∧
      r = toOutRow a := by
  rw [pipelineCore_table] at h
  obtain ⟨a, ha, rfl⟩ := List.mem_map.mp (mem_sortOutByTotalDesc.mp h)
  exact ⟨a, mem_sortAggByQuery.mp ha, rfl⟩

/-! ### Claim theorems -/

/-- C1: for every query retained after the exclusion and low-impression
filters, the derived `Total Keyword Impressions` equals the sum of
`Impressions` over all of that query's surviving rows, computed before
deduplication, and the value is identical on every row of the query. -/
theorem C1_total_keyword_impressions (parse : String → Option Int)
    (exclText : String) (t : CsvTable) (r : AggRow)
    (hr : r ∈ mergeTotals (survivors parse exclText t)) :
    r.total = totalFor (survivors parse exclText t) r.query ∧
    ∀ s ∈ mergeTotals (survivors parse exclText t),
      s.query = r.query → s.total = r.total := by
  obtain ⟨h1, -⟩ := mem_mergeTotals hr
  refine ⟨h1, fun s hs hq => ?_⟩
  obtain ⟨h2, -⟩ := mem_mergeTotals hs
  rw [h2, hq, h1]

/-- C4: a row is removed by the exclusion step iff its `Query` string is
exactly (case-sensitively) equal to one of the trimmed, non-empty exclusion
terms; substring or case-insensitive matches are retained. -/
theorem C4_exclusion_exact_match (exclText : String) (rows : List Row) (r : Row) :
    r ∈ excludeStep exclText rows ↔
      r ∈ rows ∧ r.query ∉ parseExclusions exclText := by
  unfold excludeStep
  split
  · rename_i h0
    have hnil : parseExclusions exclText = [] := by rw [h0]; rfl
    simp [hnil]
  · simp only []
    split
    · rename_i hemp
      have hnil : parseExclusions exclText = [] := List.isEmpty_iff.mp hemp
      simp [hnil]
    · simp [List.mem_filter]

/-- C5: when required columns are missing, the pipeline fails with an error
naming exactly the missing columns, and produces no cleaned table,
diagnostics or ranking. -/
theorem C5_schema_error (parse : String → Option Int) (exclText : String)
    (t : CsvTable) (h : missingColumns t.header ≠ []) :
    pipeline parse exclText t = .error (missingColumns t.header) ∧
    ∀ c, c ∈ missingColumns t.header ↔ (c ∈ requiredColumns ∧ c ∉ t.header) := by
  refine ⟨by simp [pipeline, h], fun c => ?_⟩
  simp [missingColumns, List.mem_filter]

theorem normalize_dropped (parse : String → Option Int)
    (header : List String) (rows : List (List String)) :
    (normalize parse header rows).2 =
      (rows.filter
        (fun cs => (parse (getCell header cs "Impressions")).isNone)).length ∧
    (normalize parse header rows).1.length + (normalize parse header rows).2 =
      rows.length := by
  have hkept : (normalize parse header rows).1.length =
      (rows.filter
        (fun cs => (parse (getCell header cs "Impressions")).isSome)).length := by
    simp only [normalize]
    rw [length_filterMap_eq_filter]
    refine congrArg List.length (List.filter_congr ?_)
    intro cs _
    cases h : parse (getCell header cs "Impressions") <;> simp [h]
  have hd : (normalize parse header rows).2 =
      rows.length - (normalize parse header rows).1.length := rfl
  constructor
  · rw [hd, hkept, length_sub_filter]
    refine congrArg List.length (List.filter_congr ?_)
    intro cs _
    cases h : parse (getCell header cs "Impressions") <;> simp [h]
  · have hle : (normalize parse header rows).1.length ≤ rows.length := by
      rw [hkept]; exact List.length_filter_le _ _
    omega

/-- C7: every row whose `Impressions` field fails to parse is dropped during
normalization (not a fatal error), and the reported dropped count equals
exactly the number of such rows. -/
theorem C7_non_numeric_dropped (parse : String → Option Int)
    (header : List String) (rows : List (List String)) :
    (normalize parse header rows).2 =
      (rows.filter
        (fun cs => (parse (getCell header cs "Impressions")).isNone)).length ∧
    (normalize parse header rows).1.length + (normalize parse header rows).2 =
      rows.length :=
  normalize_dropped parse header rows

/-- C2: the share-band filter keeps exactly the rows whose unrounded
percentage lies strictly between 10 and 75, and every output row's displayed
percentage is `ceil(Impressions / Total × 100)` with a trailing `%`, whose
integer value lies between 11 and 75 inclusive. -/
theorem C2_band_filter_and_display (parse : String → Option Int)
    (exclText : String) (t : CsvTable) (out : Output)
    (h : pipeline parse exclText t = .ok out) :
    (∀ a : AggRow,
        a ∈ bandFilter (dedupRows (mergeTotals (survivors parse exclText t))) ↔
          a ∈ dedupRows (mergeTotals (survivors parse exclText t)) ∧
            10 < a.pct ∧ a.pct < 75) ∧
    ∀ r ∈ out.table,
      r.pctDisplay = toString ⌈(r.impressions : ℚ) / (r.total : ℚ) * 100⌉ ++ "%" ∧
      11 ≤ ⌈(r.impressions : ℚ) / (r.total : ℚ) * 100⌉ ∧
      ⌈(r.impressions : ℚ) / (r.total : ℚ) * 100⌉ ≤ 75 := by
  refine ⟨fun a => mem_bandFilter, fun r hr => ?_⟩
  rw [pipeline_ok h] at hr
  obtain ⟨a, ha, rfl⟩ := mem_table_exists hr
  obtain ⟨hd, hband⟩ := mem_bandFilter.mp ha
  have hm : a ∈ mergeTotals (survivors parse exclText t) :=
    mem_of_mem_dedupAux _ _ _ hd
  obtain ⟨-, hpct⟩ := mem_mergeTotals hm
  have hq : ((toOutRow a).impressions : ℚ) / ((toOutRow a).total : ℚ) * 100
      = a.pct := hpct.symm
  refine ⟨?_, ?_, ?_⟩
  · show toString ⌈a.pct⌉ ++ "%" = _
    rw [hq]
  · rw [hq]
    have h10 : (10 : ℤ) < ⌈a.pct⌉ := Int.lt_ceil.mpr (by exact_mod_cast hband.1)
    omega
  · rw [hq]
    exact Int.ceil_le.mpr (by exact_mod_cast hband.2.le)

/-! ### Ranking lemmas -/

theorem rank_length (table : List OutRow) : (rankCannibalized table).length ≤ 10 := by
  simp only [rankCannibalized]
  rw [List.length_take]
  exact min_le_left _ _

theorem rank_sorted (table : List OutRow) :
    List.Pairwise (fun a b : CanEntry => b.total ≤ a.total)
      (rankCannibalized table) := by
  simp only [rankCannibalized]
  haveI : IsTotal CanEntry (fun a b => b.total ≤ a.total) :=
    ⟨fun a b => le_total _ _⟩
  haveI : IsTrans CanEntry (fun a b => b.total ≤ a.total) :=
    ⟨fun _ _ _ hab hbc => le_trans hbc hab⟩
  exact List.Pairwise.sublist (List.take_sublist _ _)
    (List.sorted_insertionSort _ _)

theorem rank_mem {table : List OutRow} {e : CanEntry}
    (he : e ∈ rankCannibalized table) : 2 ≤ distinctPages table e.query := by
  simp only [rankCannibalized] at he
  have h1 := (List.take_sublist _ _).subset he
  have h2 := (List.perm_insertionSort _ _).subset h1
  obtain ⟨hmem, hgt⟩ := List.mem_filter.mp h2
  obtain ⟨q, hq, rfl⟩ := List.mem_map.mp hmem
  simp only [decide_eq_true_eq] at hgt
  simpa using hgt

/-- C3: the cannibalization ranking contains only queries with at least 2
distinct landing pages in the final cleaned table, is sorted descending by
total keyword impressions, has length at most 10, and an empty ranking is a
valid (non-error) result: the pipeline returns `.ok` on every input passing
validation. -/
theorem C3_ranking_shape (parse : String → Option Int) (exclText : String)
    (t : CsvTable) (out : Output) (h : pipeline parse exclText t = .ok out) :
    out.ranking.length ≤ 10 ∧
    List.Pairwise (fun a b : CanEntry => b.total ≤ a.total) out.ranking ∧
    (∀ e ∈ out.ranking, 2 ≤ distinctPages out.table e.query) ∧
    ∀ t2 : CsvTable, missingColumns t2.header = [] →
      ∃ out2, pipeline parse exclText t2 = .ok out2 := by
  have hout := pipeline_ok h
  subst hout
  rw [pipelineCore_ranking]
  exact ⟨rank_length _, rank_sorted _, fun e he => rank_mem he,
    fun t2 h2 => ⟨_, pipeline_ok_of_valid parse exclText t2 h2⟩⟩

/-- C6: in the final cleaned table at most one row appears for every
(Query, Landing Page) pair, and deduplication keeps the first occurrence of
each pair in the row order current at the time of deduplication. -/
theorem C6_dedup_unique_pairs (parse : String → Option Int) (exclText : String)
    (t : CsvTable) (out : Output) (h : pipeline parse exclText t = .ok out) :
    List.Pairwise (fun a b : OutRow =>
      ¬(a.query = b.query ∧ a.landingPage = b.landingPage)) out.table ∧
    ∀ (l : List AggRow) (k : String × String) (r : AggRow),
      l.find? (fun s => decide (keyOf s = k)) = some r →
      r ∈ dedupRows l ∧ ∀ s ∈ dedupRows l, keyOf s = k → s = r := by
  have hout := pipeline_ok h
  subst hout
  constructor
  · rw [pipelineCore_table]
    have h0 : List.Pairwise (fun a b : AggRow => keyOf a ≠ keyOf b)
        (bandFilter (dedupRows (mergeTotals (survivors parse exclText t)))) :=
      List.Pairwise.sublist (List.filter_sublist _) (dedupAux_pairwise_keys _ _)
    have h1 : List.Pairwise (fun a b : AggRow => keyOf a ≠ keyOf b)
        (sortAggByQuery
          (bandFilter (dedupRows (mergeTotals (survivors parse exclText t))))) :=
      ((List.perm_insertionSort _ _).pairwise_iff (fun hxy => hxy.symm)).mpr h0
    have h2 : List.Pairwise (fun a b : OutRow =>
        ¬(a.query = b.query ∧ a.landingPage = b.landingPage))
        ((sortAggByQuery
          (bandFilter
            (dedupRows (mergeTotals (survivors parse exclText t))))).map
              toOutRow) := by
      refine List.pairwise_map.mpr (h1.imp ?_)
      intro a b hne hcon
      exact hne (Prod.ext_iff.mpr ⟨hcon.1, hcon.2⟩)
    exact ((List.perm_insertionSort _ _).pairwise_iff
      (fun hxy hcon => hxy ⟨hcon.1.symm, hcon.2.symm⟩)).mpr h2
  · intro l k r hfind
    refine ⟨dedupAux_keeps_first [] l k r hfind (List.not_mem_nil k), ?_⟩
    intro s hs hk
    exact dedupAux_first_unique [] l k r s hfind hs hk

/-- C10: for every (Query, Landing Page) pair, the row retained by
deduplication has maximal `Impressions` among the pair's surviving rows,
because the table was sorted by `Impressions` descending before totals,
percentages and deduplication. -/
theorem C10_dedup_keeps_max_impressions (parse : String → Option Int)
    (exclText : String) (t : CsvTable) (r s : AggRow)
    (hr : r ∈ dedupRows (mergeTotals (survivors parse exclText t)))
    (hs : s ∈ mergeTotals (survivors parse exclText t))
    (hq : s.query = r.query) (hl : s.landingPage = r.landingPage) :
    s.impressions ≤ r.impressions := by
  have hsorted := mergeTotals_sorted (survivors_sorted parse exclText t)
  exact dedupAux_max _ _ _ _ hsorted hr hs (by simp [keyOf, hq, hl])

/-- C8 counterexample: on the scenario table with exclusion text `BrandX`,
exactly one row is removed by the exclusion-term match, yet the two
diagnostic counts the pipeline returns are the non-numeric drop count and
the low-impression drop count, both 0 here — no returned diagnostic reports
the number of rows removed by the exclusion step. -/
theorem C8_no_exclusion_count_counterexample :
    (sortRowsDesc (normalize wParse wTable.header wTable.rows).1).length -
      (excludeStep "BrandX"
        (sortRowsDesc (normalize wParse wTable.header wTable.rows).1)).length = 1 ∧
    (pipelineCore wParse "BrandX" wTable).droppedNonNumeric = 0 ∧
    (pipelineCore wParse "BrandX" wTable).droppedLow = 0 := by decide

/-- C8 (amended): the Filter/Exclude stage returns, in addition to the
filtered table, one diagnostic count of its own — the exact number of rows
removed by the `Impressions < 10` floor; the other diagnostic the pipeline
carries is the normalization drop count, and no count of rows removed by the
exclusion-term match is computed. -/
theorem C8_floor_count_exact (parse : String → Option Int) (exclText : String)
    (t : CsvTable) (out : Output) (h : pipeline parse exclText t = .ok out) :
    out.droppedNonNumeric =
      (t.rows.filter
        (fun cs => (parse (getCell t.header cs "Impressions")).isNone)).length ∧
    out.droppedLow =
      ((excludeStep exclText (sortRowsDesc (normalize parse t.header t.rows).1)).filter
        (fun r => decide (r.impressions < 10))).length := by
  have hout := pipeline_ok h
  subst hout
  constructor
  · rw [pipelineCore_droppedNonNumeric]
    exact (normalize_dropped parse t.header t.rows).1
  · rw [pipelineCore_droppedLow]
    unfold floorFilter
    rw [length_sub_filter]
    refine congrArg List.length (List.filter_congr ?_)
    intro r _
    by_cases h10 : (10 : Int) ≤ r.impressions
    · simp [h10, not_lt.mpr h10]
    · simp [h10, not_le.mp h10]

/-- C9 counterexample: a table whose single row has a non-numeric
`Impressions` value has zero usable rows after normalization, yet the
pipeline does not fail — it returns `.ok` with an empty cleaned table and
empty ranking (only the dropped-row diagnostic records the row). -/
theorem C9_no_error_counterexample :
    (normalize wParse c9Table.header c9Table.rows).1 = [] ∧
    pipeline wParse "" c9Table = .ok ⟨[], [], 1, 0⟩ := by decide

/-- C9 (amended): if the input passes validation but has zero usable rows
after normalization, the pipeline does not fail: it returns an empty cleaned
table and empty ranking.  (Only a structurally empty file is rejected, by
the CSV reader at the boundary, before the pipeline runs.) -/
theorem C9_empty_after_normalization_ok (parse : String → Option Int)
    (exclText : String) (t : CsvTable)
    (hv : missingColumns t.header = [])
    (hn : (normalize parse t.header t.rows).1 = []) :
    ∃ out, pipeline parse exclText t = .ok out ∧
      out.table = [] ∧ out.ranking = [] := by
  have hex : excludeStep exclText (sortRowsDesc (normalize parse t.header t.rows).1)
      = [] := by
    rw [hn]
    exact excludeStep_nil exclText
  have hsurv : survivors parse exclText t = [] := by
    unfold survivors
    rw [hex]
    rfl
  have htable : (pipelineCore parse exclText t).table = [] := by
    rw [pipelineCore_table, hsurv]
    rfl
  have hrank : (pipelineCore parse exclText t).ranking = [] := by
    rw [pipelineCore_ranking, htable]
    rfl
  exact ⟨pipelineCore parse exclText t,
    pipeline_ok_of_valid parse exclText t hv, htable, hrank⟩

/-! ### Witnesses -/

/-- Witness for C1: a concrete merged row of the scenario run. -/
theorem C1_total_keyword_impressions_witness :
    w1Row ∈ mergeTotals (survivors wParse "BrandX" wTable) ∧
    (w1Row.total = totalFor (survivors wParse "BrandX" wTable) w1Row.query ∧
     ∀ s ∈ mergeTotals (survivors wParse "BrandX" wTable),
       s.query = w1Row.query → s.total = w1Row.total) :=
  ⟨by decide, C1_total_keyword_impressions wParse "BrandX" wTable w1Row (by decide)⟩

/-- Witness for C2: the scenario run, with displayed percentages 60% and
40%. -/
theorem C2_band_filter_and_display_witness :
    pipeline wParse "BrandX" wTable = .ok wOut ∧
    ((∀ a : AggRow,
        a ∈ bandFilter (dedupRows (mergeTotals (survivors wParse "BrandX" wTable))) ↔
          a ∈ dedupRows (mergeTotals (survivors wParse "BrandX" wTable)) ∧
            10 < a.pct ∧ a.pct < 75) ∧
     ∀ r ∈ wOut.table,
       r.pctDisplay = toString ⌈(r.impressions : ℚ) / (r.total : ℚ) * 100⌉ ++ "%" ∧
       11 ≤ ⌈(r.impressions : ℚ) / (r.total : ℚ) * 100⌉ ∧
       ⌈(r.impressions : ℚ) / (r.total : ℚ) * 100⌉ ≤ 75) :=
  ⟨by decide, C2_band_filter_and_display wParse "BrandX" wTable wOut (by decide)⟩

/-- Witness for C3: the scenario run ranks "shoes" with 2 landing pages. -/
theorem C3_ranking_shape_witness :
    pipeline wParse "BrandX" wTable = .ok wOut ∧
    (wOut.ranking.length ≤ 10 ∧
     List.Pairwise (fun a b : CanEntry => b.total ≤ a.total) wOut.ranking ∧
     (∀ e ∈ wOut.ranking, 2 ≤ distinctPages wOut.table e.query) ∧
     ∀ t2 : CsvTable, missingColumns t2.header = [] →
       ∃ out2, pipeline wParse "BrandX" t2 = .ok out2) :=
  ⟨by decide, C3_ranking_shape wParse "BrandX" wTable wOut (by decide)⟩

/-- Witness for C5: a table without the `Query` column is rejected with
exactly that column named. -/
theorem C5_schema_error_witness :
    missingColumns wBadTable.header ≠ [] ∧
    (pipeline wParse "" wBadTable = .error (missingColumns wBadTable.header) ∧
     ∀ c, c ∈ missingColumns wBadTable.header ↔
       (c ∈ requiredColumns ∧ c ∉ wBadTable.header)) :=
  ⟨by decide, C5_schema_error wParse "" wBadTable (by decide)⟩

/-- Witness for C6: the scenario run. -/
theorem C6_dedup_unique_pairs_witness :
    pipeline wParse "BrandX" wTable = .ok wOut ∧
    (List.Pairwise (fun a b : OutRow =>
        ¬(a.query = b.query ∧ a.landingPage = b.landingPage)) wOut.table ∧
     ∀ (l : List AggRow) (k : String × String) (r : AggRow),
       l.find? (fun s => decide (keyOf s = k)) = some r →
       r ∈ dedupRows l ∧ ∀ s ∈ dedupRows l, keyOf s = k → s = r) :=
  ⟨by decide, C6_dedup_unique_pairs wParse "BrandX" wTable wOut (by decide)⟩

/-- Witness for the amended C8: the single-row low-impression scenario,
whose floor drop count is exactly 1. -/
theorem C8_floor_count_exact_witness :
    pipeline wParse "" c8FloorTable = .ok c8Out ∧
    (c8Out.droppedNonNumeric =
      (c8FloorTable.rows.filter
        (fun cs =>
          (wParse (getCell c8FloorTable.header cs "Impressions")).isNone)).length ∧
     c8Out.droppedLow =
      ((excludeStep ""
          (sortRowsDesc (normalize wParse c8FloorTable.header c8FloorTable.rows).1)).filter
        (fun r => decide (r.impressions < 10))).length) :=
  ⟨by decide, C8_floor_count_exact wParse "" c8FloorTable c8Out (by decide)⟩

/-- Witness for the amended C9: the all-non-numeric table passes validation,
normalizes to zero rows, and still yields a successful empty result. -/
theorem C9_empty_after_normalization_ok_witness :
    missingColumns c9Table.header = [] ∧
    (normalize wParse c9Table.header c9Table.rows).1 = [] ∧
    ∃ out, pipeline wParse "" c9Table = .ok out ∧
      out.table = [] ∧ out.ranking = [] :=
  ⟨by decide, by decide,
    C9_empty_after_normalization_ok wParse "" c9Table (by decide) (by decide)⟩

/-- Witness for C10: on the duplicate-pair table, the retained `/a` row has
60 impressions, the dropped one 40. -/
theorem C10_dedup_keeps_max_impressions_witness :
    w10r ∈ dedupRows (mergeTotals (survivors wParse "" w10Table)) ∧
    w10s ∈ mergeTotals (survivors wParse "" w10Table) ∧
    w10s.impressions ≤ w10r.impressions :=
  ⟨by decide, by decide,
    C10_dedup_keeps_max_impressions wParse "" w10Table w10r w10s
      (by decide) (by decide) rfl rfl⟩

end KeywordCan
